import Mathlib

/-!
Verification of the capa feature-extractor core: a shallow embedding of
src/capa/features/extractors/dnfile/extractor.py (managed backend) and
src/capa/features/extractors/viv/extractor.py (native backend), with
theorems settling the claims about the call-graph pass, the token cache,
the scope walkers and the address model.

Modelling conventions:
  - Python dicts become functions `Nat → Option _` built by left folds of
    `Function.update` (last-write-wins), or ordered association lists when
    insertion order matters (Python dicts preserve insertion order).
  - Python sets become `Finset`.
  - The mutable `ctx` side-channel of a FunctionHandle is modelled by
    object identity: each handle records the identifiers (`callsFromRef`,
    `callsToRef`, `cacheRef`) of the mutable objects placed in its ctx,
    allocated by a counter that increments at each `set()` / `{}`
    expression in the source; the contents of the call-edge sets are kept
    in a separate state map keyed by method address, mutated by the pass.
  - A Python `assert` failure or uncaught exception is `Option.none`.
-/

namespace Capa

/-- Address variants from capa.features.address used by these extractors. -/
inductive Address where
  | NoAddress : Address
  | AbsoluteVirtualAddress (va : Nat) : Address
  deriving DecidableEq

/-- DNTokenAddress(token): the address of a managed method, a metadata token. -/
structure DNTokenAddress where
  token : Nat
  deriving DecidableEq

/-- DNTokenOffsetAddress(base, offset): an offset within a managed method body.
The offset is an integer, as Python subtraction is unbounded. -/
structure DNTokenOffsetAddress where
  base : DNTokenAddress
  offset : Int
  deriving DecidableEq

/-- The CIL opcodes distinguished by the call-graph pass; every other opcode
is collapsed into `other` with its numeric value. -/
inductive OpCode where
  | Call : OpCode
  | Callvirt : OpCode
  | Jmp : OpCode
  | Newobj : OpCode
  | other (code : Nat) : OpCode
  deriving DecidableEq

/-- Test for membership of an opcode in (OpCodes.Call, OpCodes.Callvirt,
OpCodes.Jmp, OpCodes.Newobj), the opcodes the call-graph pass considers. -/
def isCallOpcode : OpCode → Bool
  | OpCode.Call => true
  | OpCode.Callvirt => true
  | OpCode.Jmp => true
  | OpCode.Newobj => true
  | OpCode.other _ => false

/-- A decoded CIL instruction as exposed by dncil: its opcode, the value of
its operand (a metadata token for call-class instructions), and its offset
within the file. -/
structure Insn where
  opcode : OpCode
  operandValue : Nat
  offset : Nat
  deriving DecidableEq

/-- A managed method body from `get_dotnet_managed_method_bodies`: the body
file offset (`inner.offset`), the header size (`inner.header_size`), and the
decoded instruction stream. -/
structure MethodBody where
  offset : Nat
  header_size : Nat
  instructions : List Insn
  deriving DecidableEq

/-- A resolved symbol (DnType or DnUnmanagedMethod): its originating token
and a qualified name. -/
structure DnSym where
  token : Nat
  name : String
  deriving DecidableEq

/-- A Python dict insertion `d[s.token] = s` (silent overwrite on collision). -/
def dictInsert (m : Nat → Option DnSym) (s : DnSym) : Nat → Option DnSym :=
  Function.update m s.token (some s)

/-- One category of DnFileFeatureExtractorCache.__init__: fold the symbols
yielded by the helper into a dict, in order. -/
def buildCategory (syms : List DnSym) : Nat → Option DnSym :=
  syms.foldl dictInsert (fun _ => none)

/-- The token cache: five dicts from token to resolved symbol. -/
structure DnFileFeatureExtractorCache where
  imports : Nat → Option DnSym
  native_imports : Nat → Option DnSym
  methods : Nat → Option DnSym
  fields : Nat → Option DnSym
  types : Nat → Option DnSym

namespace DnFileFeatureExtractorCache

/-- DnFileFeatureExtractorCache.__init__, taking the streams produced by the
metadata helpers for the five symbol categories. -/
def build (imps nimps meths flds typs : List DnSym) : DnFileFeatureExtractorCache :=
  { imports := buildCategory imps
    native_imports := buildCategory nimps
    methods := buildCategory meths
    fields := buildCategory flds
    types := buildCategory typs }

def get_import (c : DnFileFeatureExtractorCache) (token : Nat) : Option DnSym :=
  c.imports token

def get_native_import (c : DnFileFeatureExtractorCache) (token : Nat) : Option DnSym :=
  c.native_imports token

def get_method (c : DnFileFeatureExtractorCache) (token : Nat) : Option DnSym :=
  c.methods token

def get_field (c : DnFileFeatureExtractorCache) (token : Nat) : Option DnSym :=
  c.fields token

def get_type (c : DnFileFeatureExtractorCache) (token : Nat) : Option DnSym :=
  c.types token

end DnFileFeatureExtractorCache

/-- A managed FunctionHandle: address (a DNTokenAddress), inner method body,
and the identities of the two fresh `set()` objects stored in its ctx as
`calls_from` and `calls_to`. -/
structure FunctionHandle where
  address : DNTokenAddress
  inner : MethodBody
  callsFromRef : Nat
  callsToRef : Nat
  deriving DecidableEq

namespace DnfileFeatureExtractor

/-- The first loop of get_functions: build the ordered method lookup table.
`acc` is the dict built so far (ordered, as Python dicts preserve insertion
order); `ctr` is the allocation counter for the two `set()` expressions per
iteration; the `assert fh.address not in methods.keys()` is modelled by
returning `none`. -/
def buildMethodsAux (acc : List FunctionHandle) (ctr : Nat) :
    List (Nat × MethodBody) → Option (List FunctionHandle)
  | [] => some acc
  | (token, method) :: rest =>
    let fh : FunctionHandle :=
      { address := ⟨token⟩, inner := method, callsFromRef := ctr, callsToRef := ctr + 1 }
    if acc.any (fun g => g.address = fh.address) then
      none
    else
      buildMethodsAux (acc ++ [fh]) (ctr + 2) rest

/-- The method lookup table of get_functions, built from the pairs yielded by
`get_dotnet_managed_method_bodies(self.pe)`. -/
def buildMethods (bodies : List (Nat × MethodBody)) : Option (List FunctionHandle) :=
  buildMethodsAux [] 0 bodies

/-- The keys of the methods dict at the start of the call-graph pass. -/
def methodTokens (ms : List FunctionHandle) : Finset DNTokenAddress :=
  (ms.map FunctionHandle.address).toFinset

/-- The contents of every ctx `calls_to` / `calls_from` set, keyed by the
address of the owning method handle. -/
structure CallGraphState where
  calls_to : DNTokenAddress → Finset DNTokenAddress
  calls_from : DNTokenAddress → Finset DNTokenAddress

/-- All call-edge sets are empty at handle creation. -/
def initState : CallGraphState :=
  { calls_to := fun _ => ∅, calls_from := fun _ => ∅ }

/-- The body of the inner loop of the call-graph pass, for one instruction of
the method at `caller`: skip non-call opcodes; add `caller` to the callee
calls_to set when the operand resolves to a known method; unconditionally add
the operand address to the caller calls_from set. -/
def processInsn (tokens : Finset DNTokenAddress) (caller : DNTokenAddress)
    (st : CallGraphState) (i : Insn) : CallGraphState :=
  if isCallOpcode i.opcode then
    let address : DNTokenAddress := ⟨i.operandValue⟩
    let st1 : CallGraphState :=
      if address ∈ tokens then
        { st with
          calls_to := Function.update st.calls_to address (insert caller (st.calls_to address)) }
      else st
    { st1 with
      calls_from := Function.update st1.calls_from caller (insert address (st1.calls_from caller)) }
  else st

/-- Scan every instruction of one method, in order. -/
def processMethod (tokens : Finset DNTokenAddress) (st : CallGraphState)
    (fh : FunctionHandle) : CallGraphState :=
  fh.inner.instructions.foldl (processInsn tokens fh.address) st

/-- The second loop of get_functions: the full call-graph pass over
`methods.values()`. -/
def callGraphPass (ms : List FunctionHandle) : CallGraphState :=
  ms.foldl (processMethod (methodTokens ms)) initState

/-- get_functions: build the method table (asserting address uniqueness), run
the call-graph pass to completion, then yield the handles in insertion order.
The returned state holds the final contents of every ctx call-edge set. -/
def get_functions (bodies : List (Nat × MethodBody)) :
    Option (List FunctionHandle × CallGraphState) :=
  (buildMethods bodies).map (fun ms => (ms, callGraphPass ms))

/-- An observable event of the get_functions generator: a mutation of the
call-edge set owned by the method at some address, or a handle yielded to
the caller. -/
inductive Event where
  | mutate (owner : DNTokenAddress) : Event
  | yieldFh (address : DNTokenAddress) : Event
  deriving DecidableEq

/-- The mutation events one instruction contributes, in source order: first
the callee calls_to insertion (when the operand is a known method), then the
caller calls_from insertion. -/
def insnEvents (tokens : Finset DNTokenAddress) (caller : DNTokenAddress)
    (i : Insn) : List Event :=
  if isCallOpcode i.opcode then
    (if (⟨i.operandValue⟩ : DNTokenAddress) ∈ tokens
      then [Event.mutate ⟨i.operandValue⟩] else []) ++ [Event.mutate caller]
  else []

/-- The mutation events of the scan of one method body. -/
def methodEvents (tokens : Finset DNTokenAddress) (fh : FunctionHandle) : List Event :=
  (fh.inner.instructions.map (insnEvents tokens fh.address)).flatten

/-- The event trace of the get_functions generator body, in program order:
the whole call-graph pass, then `yield from methods.values()`. -/
def getFunctionsTrace (ms : List FunctionHandle) : List Event :=
  (ms.map (methodEvents (methodTokens ms))).flatten
    ++ ms.map (fun fh => Event.yieldFh fh.address)

/-- A managed basic-block handle, as built by get_basic_blocks. -/
structure BBHandle where
  address : DNTokenAddress
  inner : MethodBody
  deriving DecidableEq

/-- get_basic_blocks: each dotnet method is considered one basic block. -/
def get_basic_blocks (f : FunctionHandle) : List BBHandle :=
  [{ address := f.address, inner := f.inner }]

/-- A feature is opaque to the core; only its attribution matters here. -/
structure Feature where
  tag : String
  deriving DecidableEq

/-- extract_basic_block_features: basic block features are not supported. -/
def extract_basic_block_features (_fh : FunctionHandle) (_bbh : BBHandle) :
    List (Feature × DNTokenAddress) :=
  []

/-- A managed instruction handle. -/
structure InsnHandle where
  address : DNTokenOffsetAddress
  inner : Insn
  deriving DecidableEq

/-- get_instructions: one handle per instruction of the block, in program
order, at DNTokenOffsetAddress(bbh.address, insn.offset - (fh.inner.offset +
fh.inner.header_size)). -/
def get_instructions (fh : FunctionHandle) (bbh : BBHandle) : List InsnHandle :=
  bbh.inner.instructions.map (fun insn =>
    { address := { base := bbh.address,
                   offset := (insn.offset : Int)
                     - ((fh.inner.offset : Int) + (fh.inner.header_size : Int)) }
      inner := insn })

/-- get_base_address of the managed extractor ignores the loaded PE entirely
and returns NO_ADDRESS; the parameter records the actual image base of the
sample to make that independence explicit. -/
def get_base_address (_peImagebase : Nat) : Address :=
  Address.NoAddress

end DnfileFeatureExtractor

/-- A native instruction as exposed by vivisect: its virtual address. -/
structure VivInsn where
  va : Nat
  deriving DecidableEq

/-- A native basic block: its virtual address and instruction sequence. -/
structure VivBasicBlock where
  va : Nat
  instructions : List VivInsn
  deriving DecidableEq

/-- A native FunctionHandle: an AbsoluteVirtualAddress and the identity of
the dict placed in its ctx as `cache`. -/
structure VivFunctionHandle where
  address : Nat
  cacheRef : Nat
  deriving DecidableEq

/-- A native basic-block handle. -/
structure VivBBHandle where
  address : Nat
  inner : VivBasicBlock
  deriving DecidableEq

/-- A native instruction handle, at the absolute virtual address of the
instruction. -/
structure VivInsnHandle where
  address : Nat
  inner : VivInsn
  deriving DecidableEq

namespace VivisectFeatureExtractor

/-- get_functions: allocate one scratch cache dict (`cache = {}`, a single
allocation before the loop, so every handle ctx holds the same object), then
yield one handle per function address of `sorted(self.vw.getFunctions())`. -/
def get_functions (vwFunctionVas : List Nat) : List VivFunctionHandle :=
  let cacheId : Nat := 0
  (vwFunctionVas.insertionSort (· ≤ ·)).map
    (fun va => { address := va, cacheRef := cacheId })

/-- get_basic_blocks: one handle per block of the function, at the block
virtual address. -/
def get_basic_blocks (blocks : List VivBasicBlock) : List VivBBHandle :=
  blocks.map (fun bb => { address := bb.va, inner := bb })

/-- get_instructions: one handle per instruction of the block, at its
absolute virtual address, in program order. -/
def get_instructions (bbh : VivBBHandle) : List VivInsnHandle :=
  bbh.inner.instructions.map (fun insn => { address := insn.va, inner := insn })

/-- get_base_address: `list(self.vw.filemeta.values())[0]["imagebase"]`; the
parameter is the list of imagebase values of the loaded files, and indexing
an empty list raises, modelled by `none`. -/
def get_base_address (filemetaImagebases : List Nat) : Option Address :=
  filemetaImagebases.head?.map Address.AbsoluteVirtualAddress

end VivisectFeatureExtractor

/-- Modelled from the spec: the helper `get_dotnet_managed_method_bodies`
(capa.features.extractors.dnfile.helpers, whose source is not part of the
files under verification) enumerates the MethodDef table in row order, so
the (token, body) pairs it yields carry strictly ascending tokens. -/
abbrev methodBodiesAscending (bodies : List (Nat × MethodBody)) : Prop :=
  (bodies.map Prod.fst).Sorted (· < ·)

/-- The identities of all `set()` objects held by the ctx of the handles of
a method list, in order. -/
def refsOf (ms : List FunctionHandle) : List Nat :=
  (ms.map (fun fh => [fh.callsFromRef, fh.callsToRef])).flatten

/-- Example method body: one Call instruction targeting token 0x06000002,
located 0 bytes into the instruction stream (body at offset 100, header 12,
instruction at file offset 112). -/
def exBodyA : MethodBody :=
  { offset := 100, header_size := 12,
    instructions := [{ opcode := OpCode.Call, operandValue := 0x06000002, offset := 112 }] }

/-- Example method body with no instructions. -/
def exBodyB : MethodBody :=
  { offset := 200, header_size := 12, instructions := [] }

/-- Example stream of (token, body) pairs: methods A (0x06000001) and B
(0x06000002), A calling B. -/
def exBodies : List (Nat × MethodBody) :=
  [(0x06000001, exBodyA), (0x06000002, exBodyB)]

/-- The handle of example method A as built by get_functions. -/
def exM1 : FunctionHandle :=
  { address := ⟨0x06000001⟩, inner := exBodyA, callsFromRef := 0, callsToRef := 1 }

/-- The handle of example method B as built by get_functions. -/
def exM2 : FunctionHandle :=
  { address := ⟨0x06000002⟩, inner := exBodyB, callsFromRef := 2, callsToRef := 3 }

/-- The method table built from exBodies. -/
def exMethods : List FunctionHandle :=
  [exM1, exM2]

/-- The call instruction of example method A. -/
def exInsn : Insn :=
  { opcode := OpCode.Call, operandValue := 0x06000002, offset := 112 }

/-- Duplicate-token symbols used to exercise the token cache. -/
def dupSymA : DnSym := ⟨1, "A"⟩

/-- Second symbol with the same token as dupSymA. -/
def dupSymB : DnSym := ⟨1, "B"⟩

/-! Helper lemmas about folds, dict updates and the call-graph step. -/

theorem foldl_preserve_mem {α σ : Type} {P : σ → Prop} {f : σ → α → σ} :
    ∀ (l : List α), (∀ s a, a ∈ l → P s → P (f s a)) → ∀ s, P s → P (l.foldl f s)
  | [], _, _, h => h
  | a :: l, mono, s, h =>
    foldl_preserve_mem l (fun s b hb => mono s b (List.mem_cons_of_mem a hb)) (f s a)
      (mono s a (List.mem_cons_self a l) h)

theorem foldl_establish_mem {α σ : Type} {P : σ → Prop} {f : σ → α → σ}
    (mono : ∀ s a, P s → P (f s a)) :
    ∀ (l : List α) (a : α), a ∈ l → (∀ s, P (f s a)) → ∀ s, P (l.foldl f s)
  | b :: l, a, ha, est, s => by
    rcases List.mem_cons.mp ha with h | h
    · subst h
      exact foldl_preserve_mem l (fun s c _ => mono s c) (f s a) (est s)
    · exact foldl_establish_mem mono l a h est (f s b)

theorem mem_update_insert {f : DNTokenAddress → Finset DNTokenAddress}
    {k v a x : DNTokenAddress} (h : x ∈ f a) :
    x ∈ Function.update f k (insert v (f k)) a := by
  rcases eq_or_ne a k with rfl | hne
  · rw [Function.update_same]
    exact Finset.mem_insert_of_mem h
  · rwa [Function.update_noteq hne]

namespace DnfileFeatureExtractor

theorem processInsn_calls_to (tokens : Finset DNTokenAddress) (caller : DNTokenAddress)
    (st : CallGraphState) (i : Insn) :
    (processInsn tokens caller st i).calls_to =
      if isCallOpcode i.opcode ∧ (⟨i.operandValue⟩ : DNTokenAddress) ∈ tokens then
        Function.update st.calls_to ⟨i.operandValue⟩
          (insert caller (st.calls_to ⟨i.operandValue⟩))
      else st.calls_to := by
  by_cases h1 : isCallOpcode i.opcode = true
  · by_cases h2 : (⟨i.operandValue⟩ : DNTokenAddress) ∈ tokens
    · simp [processInsn, h1, h2]
    · simp [processInsn, h1, h2]
  · simp [processInsn, h1]

theorem processInsn_calls_from (tokens : Finset DNTokenAddress) (caller : DNTokenAddress)
    (st : CallGraphState) (i : Insn) :
    (processInsn tokens caller st i).calls_from =
      if isCallOpcode i.opcode then
        Function.update st.calls_from caller
          (insert ⟨i.operandValue⟩ (st.calls_from caller))
      else st.calls_from := by
  by_cases h1 : isCallOpcode i.opcode = true
  · by_cases h2 : (⟨i.operandValue⟩ : DNTokenAddress) ∈ tokens
    · simp [processInsn, h1, h2]
    · simp [processInsn, h1, h2]
  · simp [processInsn, h1]

theorem calls_to_mono {tokens : Finset DNTokenAddress} {caller : DNTokenAddress}
    {st : CallGraphState} {i : Insn} {a x : DNTokenAddress} (h : x ∈ st.calls_to a) :
    x ∈ (processInsn tokens caller st i).calls_to a := by
  rw [processInsn_calls_to]
  split_ifs with h1
  · exact mem_update_insert h
  · exact h

theorem calls_from_mono {tokens : Finset DNTokenAddress} {caller : DNTokenAddress}
    {st : CallGraphState} {i : Insn} {a x : DNTokenAddress} (h : x ∈ st.calls_from a) :
    x ∈ (processInsn tokens caller st i).calls_from a := by
  rw [processInsn_calls_from]
  split_ifs with h1
  · exact mem_update_insert h
  · exact h

theorem processInsn_establishes {tokens : Finset DNTokenAddress} {caller : DNTokenAddress}
    {st : CallGraphState} {i : Insn} (hop : isCallOpcode i.opcode = true) :
    ((⟨i.operandValue⟩ : DNTokenAddress) ∈ tokens →
      caller ∈ (processInsn tokens caller st i).calls_to ⟨i.operandValue⟩) ∧
    (⟨i.operandValue⟩ : DNTokenAddress) ∈ (processInsn tokens caller st i).calls_from caller := by
  constructor
  · intro hmem
    rw [processInsn_calls_to]
    simp [hop, hmem, Function.update_same]
  · rw [processInsn_calls_from]
    simp [hop, Function.update_same]

end DnfileFeatureExtractor

/-- Claim C1: after the call-graph pass of get_functions, for every pair of
methods m1 m2 in the method table such that the body of m1 contains an
instruction whose opcode is one of Call, Callvirt, Jmp, Newobj and whose
operand token equals the token of m2, the calls_to set of m2 contains the
address of m1 and the calls_from set of m1 contains the address of m2. The
method list is universally quantified, so the property holds for every scan
order, and m1 = m2 (self-recursion) is allowed. -/
theorem claim_C1_callgraph_edges (ms : List FunctionHandle)
    (m1 m2 : FunctionHandle) (i : Insn)
    (hm1 : m1 ∈ ms) (hm2 : m2 ∈ ms) (hi : i ∈ m1.inner.instructions)
    (hop : isCallOpcode i.opcode = true)
    (hoperand : i.operandValue = m2.address.token) :
    m1.address ∈ (DnfileFeatureExtractor.callGraphPass ms).calls_to m2.address ∧
    m2.address ∈ (DnfileFeatureExtractor.callGraphPass ms).calls_from m1.address := by
  classical
  have haddr : (⟨i.operandValue⟩ : DNTokenAddress) = m2.address := by
    rw [hoperand]
  have htok : m2.address ∈ DnfileFeatureExtractor.methodTokens ms := by
    simp only [DnfileFeatureExtractor.methodTokens, List.mem_toFinset, List.mem_map]
    exact ⟨m2, hm2, rfl⟩
  set tokens := DnfileFeatureExtractor.methodTokens ms with htokens
  set P : DnfileFeatureExtractor.CallGraphState → Prop := fun st =>
    m1.address ∈ st.calls_to m2.address ∧ m2.address ∈ st.calls_from m1.address with hP
  have monoI : ∀ (s : DnfileFeatureExtractor.CallGraphState) (caller : DNTokenAddress) (ins : Insn),
      P s → P (DnfileFeatureExtractor.processInsn tokens caller s ins) := by
    intro s caller ins hp
    exact ⟨DnfileFeatureExtractor.calls_to_mono hp.1, DnfileFeatureExtractor.calls_from_mono hp.2⟩
  have monoM : ∀ (s : DnfileFeatureExtractor.CallGraphState) (fh : FunctionHandle),
      P s → P (DnfileFeatureExtractor.processMethod tokens s fh) := by
    intro s fh hp
    exact foldl_preserve_mem fh.inner.instructions (fun s ins _ hp => monoI s fh.address ins hp) s hp
  have est : ∀ s, P (DnfileFeatureExtractor.processMethod tokens s m1) := by
    intro s
    apply foldl_establish_mem (fun s ins hp => monoI s m1.address ins hp)
      m1.inner.instructions i hi
    intro s0
    have h := @DnfileFeatureExtractor.processInsn_establishes tokens m1.address s0 i hop
    constructor
    · have h1 := h.1 (by rw [haddr]; exact htok)
      rwa [haddr] at h1
    · have h2 := h.2
      rwa [haddr] at h2
  exact foldl_establish_mem monoM ms m1 hm1 est DnfileFeatureExtractor.initState

/-- Witness for C1: in the two-method example where A calls B, after the pass
the calls_to set of B holds the address of A and the calls_from set of A
holds the address of B. -/
theorem claim_C1_callgraph_edges_witness :
    exM1.address ∈ (DnfileFeatureExtractor.callGraphPass exMethods).calls_to exM2.address ∧
    exM2.address ∈ (DnfileFeatureExtractor.callGraphPass exMethods).calls_from exM1.address :=
  claim_C1_callgraph_edges exMethods exM1 exM2 exInsn (by decide) (by decide) (by decide)
    (by decide) (by decide)

/-- Claim C2: every address ever placed in a calls_to set during the pass is
the address of a defined method; a call whose operand token has no
corresponding method definition contributes to the calling method calls_from
set only, never to any calls_to set. -/
theorem claim_C2_calls_to_only_defined (ms : List FunctionHandle) :
    (∀ a x, x ∈ (DnfileFeatureExtractor.callGraphPass ms).calls_to a →
      x ∈ DnfileFeatureExtractor.methodTokens ms) ∧
    (∀ t : DNTokenAddress, t ∉ DnfileFeatureExtractor.methodTokens ms →
      ∀ a, t ∉ (DnfileFeatureExtractor.callGraphPass ms).calls_to a) ∧
    (∀ (m1 : FunctionHandle) (i : Insn), m1 ∈ ms → i ∈ m1.inner.instructions →
      isCallOpcode i.opcode = true →
      (⟨i.operandValue⟩ : DNTokenAddress) ∈
        (DnfileFeatureExtractor.callGraphPass ms).calls_from m1.address) := by
  classical
  set tokens := DnfileFeatureExtractor.methodTokens ms with htokens
  have inv : ∀ a x, x ∈ (DnfileFeatureExtractor.callGraphPass ms).calls_to a → x ∈ tokens := by
    set Q : DnfileFeatureExtractor.CallGraphState → Prop := fun st =>
      ∀ a x, x ∈ st.calls_to a → x ∈ tokens with hQ
    have stepI : ∀ (s : DnfileFeatureExtractor.CallGraphState) (caller : DNTokenAddress)
        (ins : Insn), caller ∈ tokens → Q s →
        Q (DnfileFeatureExtractor.processInsn tokens caller s ins) := by
      intro s caller ins hcaller hq a x hx
      rw [DnfileFeatureExtractor.processInsn_calls_to] at hx
      split_ifs at hx with h1
      · rcases eq_or_ne a (⟨ins.operandValue⟩ : DNTokenAddress) with rfl | hne
        · rw [Function.update_same] at hx
          rcases Finset.mem_insert.mp hx with rfl | hx
          · exact hcaller
          · exact hq _ x hx
        · rw [Function.update_noteq hne] at hx
          exact hq a x hx
      · exact hq a x hx
    have stepM : ∀ (s : DnfileFeatureExtractor.CallGraphState) (fh : FunctionHandle),
        fh ∈ ms → Q s → Q (DnfileFeatureExtractor.processMethod tokens s fh) := by
      intro s fh hfh hq
      have hcaller : fh.address ∈ tokens := by
        simp only [htokens, DnfileFeatureExtractor.methodTokens, List.mem_toFinset, List.mem_map]
        exact ⟨fh, hfh, rfl⟩
      exact foldl_preserve_mem fh.inner.instructions
        (fun s ins _ hq => stepI s fh.address ins hcaller hq) s hq
    have hinit : Q DnfileFeatureExtractor.initState := by
      intro a x hx
      simp [DnfileFeatureExtractor.initState] at hx
    exact foldl_preserve_mem ms stepM DnfileFeatureExtractor.initState hinit
  refine ⟨inv, ?_, ?_⟩
  · intro t ht a hmem
    exact ht (inv a t hmem)
  · intro m1 i hm1 hi hop
    set P : DnfileFeatureExtractor.CallGraphState → Prop := fun st =>
      (⟨i.operandValue⟩ : DNTokenAddress) ∈ st.calls_from m1.address with hP
    have monoI : ∀ (s : DnfileFeatureExtractor.CallGraphState) (caller : DNTokenAddress)
        (ins : Insn), P s → P (DnfileFeatureExtractor.processInsn tokens caller s ins) :=
      fun s caller ins hp => DnfileFeatureExtractor.calls_from_mono hp
    have monoM : ∀ (s : DnfileFeatureExtractor.CallGraphState) (fh : FunctionHandle),
        P s → P (DnfileFeatureExtractor.processMethod tokens s fh) := by
      intro s fh hp
      exact foldl_preserve_mem fh.inner.instructions
        (fun s ins _ hp => monoI s fh.address ins hp) s hp
    have est : ∀ s, P (DnfileFeatureExtractor.processMethod tokens s m1) := by
      intro s
      apply foldl_establish_mem (fun s ins hp => monoI s m1.address ins hp)
        m1.inner.instructions i hi
      intro s0
      exact (@DnfileFeatureExtractor.processInsn_establishes tokens m1.address s0 i hop).2
    exact foldl_establish_mem monoM ms m1 hm1 est DnfileFeatureExtractor.initState

/-- Witness for C2: in the two-method example, the external token 0x0A000003
is not a defined method and is in no calls_to set. -/
theorem claim_C2_calls_to_only_defined_witness :
    (⟨0x0A000003⟩ : DNTokenAddress) ∉
      (DnfileFeatureExtractor.callGraphPass exMethods).calls_to ⟨0x06000001⟩ :=
  (claim_C2_calls_to_only_defined exMethods).2.1 ⟨0x0A000003⟩ (by decide) ⟨0x06000001⟩

theorem insnEvents_shape (tokens : Finset DNTokenAddress) (caller : DNTokenAddress) (i : Insn) :
    ∀ e ∈ DnfileFeatureExtractor.insnEvents tokens caller i,
      ∃ t, e = DnfileFeatureExtractor.Event.mutate t := by
  intro e he
  simp only [DnfileFeatureExtractor.insnEvents] at he
  split_ifs at he with h1 h2
  · simp only [List.cons_append, List.nil_append, List.mem_cons, List.not_mem_nil,
      or_false] at he
    rcases he with rfl | rfl
    · exact ⟨_, rfl⟩
    · exact ⟨_, rfl⟩
  · simp only [List.nil_append, List.mem_singleton] at he
    subst he
    exact ⟨_, rfl⟩
  · simp at he

theorem methodEvents_shape (tokens : Finset DNTokenAddress) (fh : FunctionHandle) :
    ∀ e ∈ DnfileFeatureExtractor.methodEvents tokens fh,
      ∃ t, e = DnfileFeatureExtractor.Event.mutate t := by
  intro e he
  simp only [DnfileFeatureExtractor.methodEvents, List.mem_flatten, List.mem_map] at he
  obtain ⟨l, ⟨i, hi, rfl⟩, hel⟩ := he
  exact insnEvents_shape tokens fh.address i e hel

theorem passEvents_shape (ms : List FunctionHandle) :
    ∀ e ∈ (ms.map (DnfileFeatureExtractor.methodEvents
        (DnfileFeatureExtractor.methodTokens ms))).flatten,
      ∃ t, e = DnfileFeatureExtractor.Event.mutate t := by
  intro e he
  simp only [List.mem_flatten, List.mem_map] at he
  obtain ⟨l, ⟨fh, hfh, rfl⟩, hel⟩ := he
  exact methodEvents_shape (DnfileFeatureExtractor.methodTokens ms) fh e hel

theorem yieldEvents_shape (ms : List FunctionHandle) :
    ∀ e ∈ ms.map (fun fh => DnfileFeatureExtractor.Event.yieldFh fh.address),
      ∃ t, e = DnfileFeatureExtractor.Event.yieldFh t := by
  intro e he
  simp only [List.mem_map] at he
  obtain ⟨fh, _, rfl⟩ := he
  exact ⟨_, rfl⟩

theorem append_mutate_before_yield (L1 L2 : List DnfileFeatureExtractor.Event)
    (h1 : ∀ e ∈ L1, ∃ t, e = DnfileFeatureExtractor.Event.mutate t)
    (h2 : ∀ e ∈ L2, ∃ t, e = DnfileFeatureExtractor.Event.yieldFh t)
    (i j : Nat) (hi : i < (L1 ++ L2).length) (hj : j < (L1 ++ L2).length)
    (hyield : ∃ t, (L1 ++ L2)[i] = DnfileFeatureExtractor.Event.yieldFh t)
    (hmut : ∃ t, (L1 ++ L2)[j] = DnfileFeatureExtractor.Event.mutate t) :
    j < i := by
  obtain ⟨ty, hy⟩ := hyield
  obtain ⟨tm, hm⟩ := hmut
  have hiL : ¬ i < L1.length := by
    intro hlt
    rw [List.getElem_append_left hlt] at hy
    obtain ⟨t, ht⟩ := h1 _ (List.getElem_mem hlt)
    rw [hy] at ht
    cases ht
  have hjL : j < L1.length := by
    by_contra hge
    have hge' : L1.length ≤ j := Nat.le_of_not_lt hge
    have hjlen : j - L1.length < L2.length := by
      simp only [List.length_append] at hj
      omega
    rw [List.getElem_append_right hge'] at hm
    obtain ⟨t, ht⟩ := h2 _ (List.getElem_mem hjlen)
    rw [hm] at ht
    cases ht
  omega

/-- Claim C3: in the event trace of the get_functions generator, every
mutation of a call-edge set happens strictly before every handle is yielded:
the call-graph pass runs to completion before the caller can observe the
first FunctionHandle. -/
theorem claim_C3_pass_completes_before_yield (ms : List FunctionHandle) (i j : Nat)
    (hi : i < (DnfileFeatureExtractor.getFunctionsTrace ms).length)
    (hj : j < (DnfileFeatureExtractor.getFunctionsTrace ms).length)
    (hyield : ∃ t, (DnfileFeatureExtractor.getFunctionsTrace ms)[i] =
      DnfileFeatureExtractor.Event.yieldFh t)
    (hmut : ∃ t, (DnfileFeatureExtractor.getFunctionsTrace ms)[j] =
      DnfileFeatureExtractor.Event.mutate t) :
    j < i :=
  append_mutate_before_yield _ _ (passEvents_shape ms) (yieldEvents_shape ms) i j hi hj
    hyield hmut

/-- Witness for C3: in the two-method example trace, the yield at index 2
follows the mutation at index 1. -/
theorem claim_C3_pass_completes_before_yield_witness : (1 : Nat) < 2 := by
  have hi : 2 < (DnfileFeatureExtractor.getFunctionsTrace exMethods).length := by decide
  have hj : 1 < (DnfileFeatureExtractor.getFunctionsTrace exMethods).length := by decide
  exact claim_C3_pass_completes_before_yield exMethods 2 1 hi hj
    ⟨⟨0x06000001⟩, by rfl⟩ ⟨⟨0x06000001⟩, by rfl⟩

theorem foldl_dictInsert_apply (syms : List DnSym) :
    ∀ (m : Nat → Option DnSym) (t : Nat),
      (syms.foldl dictInsert m) t = (syms.reverse.find? (fun s => s.token == t)).or (m t) := by
  induction syms with
  | nil =>
    intro m t
    rfl
  | cons s l ih =>
    intro m t
    rw [List.foldl_cons, ih (dictInsert m s) t, List.reverse_cons, List.find?_append]
    rcases hfind : l.reverse.find? (fun s2 => s2.token == t) with _ | s3
    · rw [hfind, Option.none_or, Option.none_or]
      rw [dictInsert, Function.update_apply]
      by_cases ht : t = s.token
      · simp [List.find?, ht]
      · have hbeq : (s.token == t) = false := by
          simp [Ne.symm ht]
        simp [List.find?, hbeq, ht]
    · rw [hfind]
      rfl

theorem buildCategory_eq (syms : List DnSym) (t : Nat) :
    buildCategory syms t = syms.reverse.find? (fun s => s.token == t) := by
  rw [buildCategory, foldl_dictInsert_apply]
  cases syms.reverse.find? (fun s => s.token == t) <;> rfl

theorem buildMethodsAux_none_of_mem :
    ∀ (bodies : List (Nat × MethodBody)) (acc : List FunctionHandle) (ctr t : Nat),
      t ∈ bodies.map Prod.fst → (∃ g ∈ acc, g.address.token = t) →
      DnfileFeatureExtractor.buildMethodsAux acc ctr bodies = none := by
  intro bodies
  induction bodies with
  | nil =>
    intro acc ctr t ht hg
    simp at ht
  | cons b rest ih =>
    obtain ⟨tok, m⟩ := b
    intro acc ctr t ht hg
    obtain ⟨g, hgacc, hgt⟩ := hg
    simp only [DnfileFeatureExtractor.buildMethodsAux]
    split_ifs with hany
    · rfl
    · simp only [List.map_cons, List.mem_cons] at ht
      rcases ht with rfl | ht
      · exfalso
        apply hany
        rw [List.any_eq_true]
        obtain ⟨gaddr, gi, gf, gc⟩ := g
        obtain ⟨gtok⟩ := gaddr
        have hgt2 : gtok = t := hgt
        subst hgt2
        exact ⟨_, hgacc, by simp⟩
      · exact ih _ _ t ht ⟨g, by simp [hgacc], hgt⟩

theorem buildMethodsAux_none_of_dup :
    ∀ (bodies : List (Nat × MethodBody)) (acc : List FunctionHandle) (ctr : Nat),
      ¬ (bodies.map Prod.fst).Nodup →
      DnfileFeatureExtractor.buildMethodsAux acc ctr bodies = none := by
  intro bodies
  induction bodies with
  | nil =>
    intro acc ctr h
    exact absurd List.nodup_nil h
  | cons b rest ih =>
    obtain ⟨tok, m⟩ := b
    intro acc ctr h
    simp only [List.map_cons, List.nodup_cons, not_and_or] at h
    simp only [DnfileFeatureExtractor.buildMethodsAux]
    split_ifs with hany
    · rfl
    · rcases h with h | h
      · push_neg at h
        exact buildMethodsAux_none_of_mem rest _ _ tok h
          ⟨⟨⟨tok⟩, m, ctr, ctr + 1⟩, by simp, rfl⟩
      · exact ih _ _ h

/-- Counterexample for C4: building the token cache over a category holding
two entries with the same token raises nothing and silently keeps only the
last entry, contradicting the claim that this path fails loudly. -/
theorem claim_C4_counterexample_cache_overwrites :
    (DnFileFeatureExtractorCache.build [dupSymA, dupSymB] [] [] [] []).get_import 1 =
      some dupSymB ∧ dupSymB ≠ dupSymA := by
  constructor
  · rfl
  · decide

/-- Claim C4 as amended: a duplicate method token makes get_functions fail
loudly (the assertion modelled by none), but the token cache build never
fails: on a duplicate token within a category its dicts silently keep the
last entry of that token (lookup equals find?-last, last-write-wins). -/
theorem claim_C4_amended_duplicate_policy (bodies : List (Nat × MethodBody))
    (syms : List DnSym) (t : Nat) (hdup : ¬ (bodies.map Prod.fst).Nodup) :
    DnfileFeatureExtractor.buildMethods bodies = none ∧
    buildCategory syms t = syms.reverse.find? (fun s => s.token == t) :=
  ⟨buildMethodsAux_none_of_dup bodies [] 0 hdup, buildCategory_eq syms t⟩

/-- Witness for the amended C4 at a concrete duplicated token. -/
theorem claim_C4_amended_duplicate_policy_witness :
    DnfileFeatureExtractor.buildMethods [(1, exBodyB), (1, exBodyB)] = none ∧
    buildCategory [dupSymA, dupSymB] 1 =
      [dupSymA, dupSymB].reverse.find? (fun s => s.token == 1) :=
  claim_C4_amended_duplicate_policy [(1, exBodyB), (1, exBodyB)] [dupSymA, dupSymB] 1
    (by decide)

theorem buildMethodsAux_tokens :
    ∀ (bodies : List (Nat × MethodBody)) (acc : List FunctionHandle) (ctr : Nat)
      (ms : List FunctionHandle),
      DnfileFeatureExtractor.buildMethodsAux acc ctr bodies = some ms →
      ms.map (fun fh => fh.address.token) =
        acc.map (fun fh => fh.address.token) ++ bodies.map Prod.fst := by
  intro bodies
  induction bodies with
  | nil =>
    intro acc ctr ms h
    have h2 : acc = ms := by
      simpa [DnfileFeatureExtractor.buildMethodsAux] using h
    subst h2
    simp
  | cons b rest ih =>
    obtain ⟨tok, m⟩ := b
    intro acc ctr ms h
    simp only [DnfileFeatureExtractor.buildMethodsAux] at h
    split_ifs at h with hany
    rw [ih _ _ _ h]
    simp

/-- Claim C5: both function walkers enumerate handles deterministically in
ascending order of starting address: the native walker sorts the function
virtual addresses ascending; the managed walker yields handles in the order
of get_dotnet_managed_method_bodies, which is ascending token order
(modelled from the spec). -/
theorem claim_C5_walker_order (vas : List Nat) (bodies : List (Nat × MethodBody))
    (ms : List FunctionHandle) (hasc : methodBodiesAscending bodies)
    (hbuild : DnfileFeatureExtractor.buildMethods bodies = some ms) :
    ((VivisectFeatureExtractor.get_functions vas).map VivFunctionHandle.address).Sorted
      (· ≤ ·) ∧
    (ms.map (fun fh => fh.address.token)).Sorted (· < ·) := by
  constructor
  · have hmap : (VivisectFeatureExtractor.get_functions vas).map VivFunctionHandle.address
        = vas.insertionSort (· ≤ ·) := by
      simp [VivisectFeatureExtractor.get_functions, List.map_map, Function.comp_def]
    rw [hmap]
    exact List.sorted_insertionSort (· ≤ ·) vas
  · have htoks := buildMethodsAux_tokens bodies [] 0 ms hbuild
    simp only [List.map_nil, List.nil_append] at htoks
    rw [htoks]
    exact hasc

/-- Witness for C5 on concrete inputs for both backends. -/
theorem claim_C5_walker_order_witness :
    (((VivisectFeatureExtractor.get_functions [4202496, 4198400]).map
      VivFunctionHandle.address).Sorted (· ≤ ·)) ∧
    ((exMethods.map (fun fh => fh.address.token)).Sorted (· < ·)) :=
  claim_C5_walker_order [4202496, 4198400] exBodies exMethods (by decide) (by decide)

theorem refsOf_append (l : List FunctionHandle) (fh : FunctionHandle) :
    refsOf (l ++ [fh]) = refsOf l ++ [fh.callsFromRef, fh.callsToRef] := by
  simp [refsOf]

theorem buildMethodsAux_refs :
    ∀ (bodies : List (Nat × MethodBody)) (acc : List FunctionHandle) (ctr : Nat)
      (ms : List FunctionHandle),
      DnfileFeatureExtractor.buildMethodsAux acc ctr bodies = some ms →
      refsOf ms = refsOf acc ++ List.range' ctr (2 * bodies.length) := by
  intro bodies
  induction bodies with
  | nil =>
    intro acc ctr ms h
    have h2 : acc = ms := by
      simpa [DnfileFeatureExtractor.buildMethodsAux] using h
    subst h2
    simp
  | cons b rest ih =>
    obtain ⟨tok, m⟩ := b
    intro acc ctr ms h
    simp only [DnfileFeatureExtractor.buildMethodsAux] at h
    split_ifs at h with hany
    rw [ih _ _ _ h, refsOf_append]
    have hlen : 2 * ((tok, m) :: rest).length = (2 * rest.length + 1) + 1 := by
      simp [List.length_cons]
      omega
    rw [hlen, List.range'_succ, List.range'_succ]
    simp

/-- Claim C6 as amended: each managed handle is created with two fresh
`set()` objects for calls_from and calls_to (the identities across all
handles of one enumeration are pairwise distinct) and every call-edge set is
empty at creation time; but the native handles do not each get a fresh
scratch cache: all handles of one enumeration alias the single cache dict
allocated before the loop. -/
theorem claim_C6_amended_context_freshness (bodies : List (Nat × MethodBody))
    (ms : List FunctionHandle) (vas : List Nat)
    (hbuild : DnfileFeatureExtractor.buildMethods bodies = some ms) :
    (refsOf ms).Nodup ∧
    (∀ a, DnfileFeatureExtractor.initState.calls_to a = ∅ ∧
      DnfileFeatureExtractor.initState.calls_from a = ∅) ∧
    (∀ fh1 fh2 : VivFunctionHandle, fh1 ∈ VivisectFeatureExtractor.get_functions vas →
      fh2 ∈ VivisectFeatureExtractor.get_functions vas → fh1.cacheRef = fh2.cacheRef) := by
  refine ⟨?_, fun a => ⟨rfl, rfl⟩, ?_⟩
  · have h := buildMethodsAux_refs bodies [] 0 ms hbuild
    rw [h]
    simpa [refsOf] using List.nodup_range' 0 (2 * bodies.length)
  · intro fh1 fh2 h1 h2
    simp only [VivisectFeatureExtractor.get_functions, List.mem_map] at h1 h2
    obtain ⟨va1, _, rfl⟩ := h1
    obtain ⟨va2, _, rfl⟩ := h2
    rfl

/-- Counterexample for C6: for the native backend, the two handles emitted
for a two-function sample carry the same cache object in their contexts
(identity 0 for both, the dict allocated once before the loop), although
their addresses differ: an emitted handle context IS aliased to mutable
state shared with another handle. -/
theorem claim_C6_counterexample_shared_cache :
    (VivisectFeatureExtractor.get_functions [4198400, 4202496]).map
      VivFunctionHandle.address = [4198400, 4202496] ∧
    (VivisectFeatureExtractor.get_functions [4198400, 4202496]).map
      VivFunctionHandle.cacheRef = [0, 0] := by
  constructor
  · rfl
  · rfl

/-- Witness for the amended C6 on the two-method example. -/
theorem claim_C6_amended_context_freshness_witness :
    (refsOf exMethods).Nodup ∧
    (∀ a, DnfileFeatureExtractor.initState.calls_to a = ∅ ∧
      DnfileFeatureExtractor.initState.calls_from a = ∅) ∧
    (∀ fh1 fh2 : VivFunctionHandle,
      fh1 ∈ VivisectFeatureExtractor.get_functions [4198400] →
      fh2 ∈ VivisectFeatureExtractor.get_functions [4198400] →
      fh1.cacheRef = fh2.cacheRef) :=
  claim_C6_amended_context_freshness exBodies exMethods [4198400] (by decide)

/-- Claim C7: for each instruction of a managed block the instruction walker
yields a token+offset address whose base is the enclosing method token and
whose offset is insn.offset minus (method body offset plus header size); the
native walker yields the absolute virtual address of each instruction; both
enumerate in program order (the handle streams mirror the instruction
streams elementwise). -/
theorem claim_C7_insn_walker_addresses (fh : FunctionHandle)
    (bbh : DnfileFeatureExtractor.BBHandle)
    (hbb : bbh ∈ DnfileFeatureExtractor.get_basic_blocks fh) (vbb : VivBBHandle) :
    ((DnfileFeatureExtractor.get_instructions fh bbh).map (fun ih => ih.address) =
      bbh.inner.instructions.map (fun insn =>
        { base := fh.address,
          offset := (insn.offset : Int) -
            ((fh.inner.offset : Int) + (fh.inner.header_size : Int)) }) ∧
     (DnfileFeatureExtractor.get_instructions fh bbh).map (fun ih => ih.inner) =
      bbh.inner.instructions) ∧
    ((VivisectFeatureExtractor.get_instructions vbb).map (fun ih => ih.address) =
      vbb.inner.instructions.map VivInsn.va ∧
     (VivisectFeatureExtractor.get_instructions vbb).map (fun ih => ih.inner) =
      vbb.inner.instructions) := by
  have hb : bbh = { address := fh.address, inner := fh.inner } := by
    simpa [DnfileFeatureExtractor.get_basic_blocks] using hbb
  subst hb
  refine ⟨⟨?_, ?_⟩, ?_, ?_⟩ <;>
    simp [DnfileFeatureExtractor.get_instructions,
      VivisectFeatureExtractor.get_instructions, List.map_map, Function.comp_def]

/-- Witness for C7 on the one-call example method and a one-instruction
native block. -/
theorem claim_C7_insn_walker_addresses_witness :
    (((DnfileFeatureExtractor.get_instructions exM1
        { address := exM1.address, inner := exM1.inner }).map (fun ih => ih.address) =
      exM1.inner.instructions.map (fun insn =>
        { base := exM1.address,
          offset := (insn.offset : Int) -
            ((exM1.inner.offset : Int) + (exM1.inner.header_size : Int)) }) ∧
     (DnfileFeatureExtractor.get_instructions exM1
        { address := exM1.address, inner := exM1.inner }).map (fun ih => ih.inner) =
      exM1.inner.instructions) ∧
    ((VivisectFeatureExtractor.get_instructions
        { address := 4198400, inner := { va := 4198400, instructions := [{ va := 4198402 }] } }).map
        (fun ih => ih.address) =
      ({ va := 4198400, instructions := [{ va := 4198402 }] } : VivBasicBlock).instructions.map
        VivInsn.va ∧
     (VivisectFeatureExtractor.get_instructions
        { address := 4198400, inner := { va := 4198400, instructions := [{ va := 4198402 }] } }).map
        (fun ih => ih.inner) =
      ({ va := 4198400, instructions := [{ va := 4198402 }] } : VivBasicBlock).instructions)) :=
  claim_C7_insn_walker_addresses exM1 { address := exM1.address, inner := exM1.inner }
    (by simp [DnfileFeatureExtractor.get_basic_blocks])
    { address := 4198400, inner := { va := 4198400, instructions := [{ va := 4198402 }] } }

theorem buildCategory_mem_of_some (syms : List DnSym) (t : Nat) (s : DnSym)
    (h : buildCategory syms t = some s) : s ∈ syms ∧ s.token = t := by
  rw [buildCategory_eq] at h
  constructor
  · exact List.mem_reverse.mp (List.mem_of_find?_eq_some h)
  · simpa using List.find?_some h

theorem buildCategory_none_of_absent (syms : List DnSym) (t : Nat)
    (h : ∀ s ∈ syms, s.token ≠ t) : buildCategory syms t = none := by
  rw [buildCategory_eq, List.find?_eq_none]
  intro s hs
  simp [h s (List.mem_reverse.mp hs)]

theorem buildCategory_total (syms : List DnSym) (t : Nat) :
    (buildCategory syms t = none ∨
      ∃ s, s ∈ syms ∧ s.token = t ∧ buildCategory syms t = some s) ∧
    ((∀ s ∈ syms, s.token ≠ t) → buildCategory syms t = none) := by
  constructor
  · rcases h : buildCategory syms t with _ | s
    · exact Or.inl rfl
    · obtain ⟨hm, ht⟩ := buildCategory_mem_of_some syms t s h
      exact Or.inr ⟨s, hm, ht, rfl⟩
  · exact buildCategory_none_of_absent syms t

/-- Claim C8: every token cache lookup is a total function of the token: for
any u32 input, including tokens absent from the sample, it returns either a
symbol that came from the corresponding input category with exactly that
token, or an explicit none; a token absent from a category always yields
none, never a default symbol and never an error. -/
theorem claim_C8_cache_lookups_total (imps nimps meths flds typs : List DnSym)
    (t : Nat) (c : DnFileFeatureExtractorCache)
    (hc : c = DnFileFeatureExtractorCache.build imps nimps meths flds typs) :
    ((c.get_import t = none ∨
        ∃ s, s ∈ imps ∧ s.token = t ∧ c.get_import t = some s) ∧
      ((∀ s ∈ imps, s.token ≠ t) → c.get_import t = none)) ∧
    ((c.get_native_import t = none ∨
        ∃ s, s ∈ nimps ∧ s.token = t ∧ c.get_native_import t = some s) ∧
      ((∀ s ∈ nimps, s.token ≠ t) → c.get_native_import t = none)) ∧
    ((c.get_method t = none ∨
        ∃ s, s ∈ meths ∧ s.token = t ∧ c.get_method t = some s) ∧
      ((∀ s ∈ meths, s.token ≠ t) → c.get_method t = none)) ∧
    ((c.get_field t = none ∨
        ∃ s, s ∈ flds ∧ s.token = t ∧ c.get_field t = some s) ∧
      ((∀ s ∈ flds, s.token ≠ t) → c.get_field t = none)) ∧
    ((c.get_type t = none ∨
        ∃ s, s ∈ typs ∧ s.token = t ∧ c.get_type t = some s) ∧
      ((∀ s ∈ typs, s.token ≠ t) → c.get_type t = none)) := by
  subst hc
  exact ⟨buildCategory_total imps t, buildCategory_total nimps t,
    buildCategory_total meths t, buildCategory_total flds t, buildCategory_total typs t⟩

/-- Witness for C8: looking up a token absent from the method table returns
an explicit absence. -/
theorem claim_C8_cache_lookups_total_witness :
    (DnFileFeatureExtractorCache.build [] [] [dupSymA] [] []).get_method 7 = none := by
  have h := claim_C8_cache_lookups_total [] [] [dupSymA] [] [] 7
    (DnFileFeatureExtractorCache.build [] [] [dupSymA] [] []) rfl
  exact h.2.2.1.2 (by decide)

/-- Claim C9: for every managed method, get_basic_blocks yields exactly one
basic-block handle, whose address equals the method address, and
extract_basic_block_features on it yields the empty feature sequence. -/
theorem claim_C9_single_basic_block (fh : FunctionHandle)
    (bbh : DnfileFeatureExtractor.BBHandle) :
    DnfileFeatureExtractor.get_basic_blocks fh =
      [{ address := fh.address, inner := fh.inner }] ∧
    DnfileFeatureExtractor.extract_basic_block_features fh bbh = [] :=
  ⟨rfl, rfl⟩

/-- Claim C10: the managed extractor always reports the NoAddress sentinel as
base address, regardless of the actual image base of the loaded PE; the
native extractor reports the concrete absolute image base of the first
(single) loaded file. -/
theorem claim_C10_base_address (peImagebase : Nat) (b : Nat) (rest : List Nat) :
    DnfileFeatureExtractor.get_base_address peImagebase = Address.NoAddress ∧
    VivisectFeatureExtractor.get_base_address (b :: rest) =
      some (Address.AbsoluteVirtualAddress b) :=
  ⟨rfl, rfl⟩

end Capa
